import Mathlib

/-!
# Verification of the ark-circom `SafeMem` marshaling layer

Shallow embedding of `crates/ark-circom/src/memory.rs`: the WASM linear
memory, the bump allocator over it, and the short/long field-element
codec (`write_fr` / `read_fr`).

Modelling conventions:
* The WASM linear memory is a byte array: a size together with a byte
  function.  All multi-byte quantities are little-endian, as in the
  source (`to_le_bytes` / `from_le_bytes` / wasmer's `MemoryView`).
* Rust panics (slice indexing out of bounds, failed `expect`/`unwrap`,
  arithmetic overflow of a `u32` in a debug build) are modelled as the
  error value `RtError.panic` of an `Except`.  The source performs no
  explicit bounds validation of its own and defines no structured
  memory error; `RtError.memoryAccessFault` exists in the embedding
  only so that the spec's claimed error behaviour can be stated and
  compared against the code's.
* `num_bigint::BigInt` values are `ℤ`, `BigUint` values are `ℕ`.
-/

/-- A WASM linear-memory buffer: `size` bytes, `byte i` being the value
stored at offset `i` (meaningful for `i < size`). -/
structure Mem where
  size : ℕ
  byte : ℕ → ℕ

/-- The constant `ark_bn254::FrParameters::MODULUS` as an integer (the bn254 scalar
field order). -/
def frModulus : ℕ :=
  21888242871839275222246405745257275088548364400416034343698204186575808495617

/-- The type `num_bigint::Sign`. -/
inductive BigIntSign
  | minus
  | noSign
  | plus
deriving DecidableEq

/-- Embeds `num_bigint::BigInt::from_biguint(sign, data)`.  Following the
num-bigint implementation: when the sign is `NoSign` the magnitude is
discarded and the resulting value is zero. -/
def bigIntFromBiguint : BigIntSign → ℕ → ℤ
  | BigIntSign.minus, n => -(n : ℤ)
  | BigIntSign.noSign, _ => 0
  | BigIntSign.plus, n => (n : ℤ)

/-- Failure modes of the embedded operations.  `panic` is a Rust panic
(out-of-bounds slice indexing, a failed `expect`/`unwrap`, or `u32`
overflow).  `memoryAccessFault` is the structured error the spec
prescribes for out-of-bounds accesses; no code path produces it. -/
inductive RtError
  | panic
  | memoryAccessFault
deriving DecidableEq

/-- Overwrite one byte of the buffer. -/
def Mem.setByte (m : Mem) (i v : ℕ) : Mem :=
  ⟨m.size, fun j => if j = i then v else m.byte j⟩

/-- Store the `n` low-order little-endian base-256 digits of `num` at
offsets `ptr, ptr+1, …, ptr+n-1` (the effect of `copy_from_slice` with
`to_le_bytes`-style data). -/
def writeBytesLE (m : Mem) (ptr num : ℕ) : ℕ → Mem
  | 0 => m
  | Nat.succ n => writeBytesLE (m.setByte ptr (num % 256)) (ptr + 1) (num / 256) n

/-- Read `n` bytes at offsets `ptr, …, ptr+n-1` as a little-endian
unsigned integer. -/
def readBytesLE (m : Mem) (ptr : ℕ) : ℕ → ℕ
  | 0 => 0
  | Nat.succ n => m.byte ptr + 256 * readBytesLE m (ptr + 1) n

/-- Embeds `memory.view::<u32>()[idx].get()`: the `idx`-th little-endian `u32`
cell of the buffer.  Indexing past the end of the view is a panic. -/
def Mem.viewU32 (m : Mem) (idx : ℕ) : Except RtError ℕ :=
  if (idx + 1) * 4 ≤ m.size then Except.ok (readBytesLE m (idx * 4) 4)
  else Except.error RtError.panic

/-- Embeds `SafeMem` (memory.rs lines 14-22): the wasmer memory handle plus the
constants derived at construction time. -/
structure SafeMem where
  mem : Mem
  short_max : ℤ
  short_min : ℤ
  prime : ℤ
  n32 : ℕ

/-- Embeds `SafeMem::new` (memory.rs lines 33-47).  `short_max` is
`0x8000_0000`; `short_min` is
`BigInt::from_biguint(Sign::NoSign, MODULUS) - short_max`, and the
`NoSign` constructor zeroes the magnitude, so the modulus term
contributes nothing. -/
def SafeMem.new (memory : Mem) (n32 : ℕ) (prime : ℤ) : SafeMem :=
  let short_max : ℤ := 0x80000000
  let short_min : ℤ := bigIntFromBiguint BigIntSign.noSign frModulus - short_max
  { mem := memory, short_max := short_max, short_min := short_min,
    prime := prime, n32 := n32 }

/-- Embeds `SafeMem::free_pos` (memory.rs lines 53-55): `self.view()[0].get()`. -/
def SafeMem.free_pos (s : SafeMem) : Except RtError ℕ :=
  s.mem.viewU32 0

/-- Embeds `SafeMem::write_u32` (memory.rs lines 70-73):
`buf[ptr..ptr+4].copy_from_slice(&num.to_le_bytes())`; slice indexing
past the buffer panics. -/
def SafeMem.write_u32 (s : SafeMem) (ptr num : ℕ) : Except RtError SafeMem :=
  if ptr + 4 ≤ s.mem.size then
    Except.ok { s with mem := writeBytesLE s.mem ptr num 4 }
  else Except.error RtError.panic

/-- Embeds `SafeMem::read_u32` (memory.rs lines 76-83): 4 bytes at `ptr`,
little-endian; slice indexing past the buffer panics. -/
def SafeMem.read_u32 (s : SafeMem) (ptr : ℕ) : Except RtError ℕ :=
  if ptr + 4 ≤ s.mem.size then Except.ok (readBytesLE s.mem ptr 4)
  else Except.error RtError.panic

/-- Embeds `SafeMem::set_free_pos` (memory.rs lines 57-59). -/
def SafeMem.set_free_pos (s : SafeMem) (ptr : ℕ) : Except RtError SafeMem :=
  s.write_u32 0 ptr

/-- Embeds `SafeMem::alloc_u32` (memory.rs lines 61-65): returns the current
free position and advances it by 8.  The addition is on `u32`, so it
panics on overflow (debug semantics). -/
def SafeMem.alloc_u32 (s : SafeMem) : Except RtError (ℕ × SafeMem) :=
  match s.free_pos with
  | Except.error e => Except.error e
  | Except.ok p =>
    if p + 8 < 4294967296 then
      match s.set_free_pos (p + 8) with
      | Except.error e => Except.error e
      | Except.ok s2 => Except.ok (p, s2)
    else Except.error RtError.panic

/-- Embeds `SafeMem::alloc_fr` (memory.rs lines 85-90): `n32` is hardcoded to 8
inside the function (the `self.n32` field is not consulted), so the free
position advances by `8 * 4 + 8 = 40`. -/
def SafeMem.alloc_fr (s : SafeMem) : Except RtError (ℕ × SafeMem) :=
  let n32 : ℕ := 8
  match s.free_pos with
  | Except.error e => Except.error e
  | Except.ok p =>
    if p + (n32 * 4 + 8) < 4294967296 then
      match s.set_free_pos (p + (n32 * 4 + 8)) with
      | Except.error e => Except.error e
      | Except.ok s2 => Except.ok (p, s2)
    else Except.error RtError.panic

/-- Embeds `SafeMem::write_short_positive` (memory.rs lines 128-133):
`fr.to_i32().expect(..)` panics outside the `i32` range; `num as u32`
reinterprets the two's-complement bits, i.e. takes `fr mod 2^32`. -/
def SafeMem.write_short_positive (s : SafeMem) (ptr : ℕ) (fr : ℤ) :
    Except RtError SafeMem :=
  if -2147483648 ≤ fr ∧ fr ≤ 2147483647 then
    match s.write_u32 ptr (fr.emod 4294967296).toNat with
    | Except.error e => Except.error e
    | Except.ok s2 => s2.write_u32 (ptr + 4) 0
  else Except.error RtError.panic

/-- Embeds `SafeMem::write_short_negative` (memory.rs lines 135-147):
`num = fr - short_min - short_max + 0x0001_0000_0000`, then
`num.to_u32().expect(..)` panics unless `0 ≤ num < 2^32`. -/
def SafeMem.write_short_negative (s : SafeMem) (ptr : ℕ) (fr : ℤ) :
    Except RtError SafeMem :=
  let num : ℤ := fr - s.short_min - s.short_max + 4294967296
  if 0 ≤ num ∧ num ≤ 4294967295 then
    match s.write_u32 ptr num.toNat with
    | Except.error e => Except.error e
    | Except.ok s2 => s2.write_u32 (ptr + 4) 0
  else Except.error RtError.panic

/-- Embeds `SafeMem::write_big` (memory.rs lines 156-168): `into_parts`
discards the sign and keeps the magnitude;
`BigInteger256::try_from(..).unwrap()` panics for magnitudes `≥ 2^256`;
the 32-byte little-endian encoding is then copied into the buffer
(slice indexing past the buffer panics). -/
def SafeMem.write_big (s : SafeMem) (ptr : ℕ) (num : ℤ) : Except RtError SafeMem :=
  let mag : ℕ := num.natAbs
  if mag < 2 ^ 256 then
    if ptr + 32 ≤ s.mem.size then
      Except.ok { s with mem := writeBytesLE s.mem ptr mag 32 }
    else Except.error RtError.panic
  else Except.error RtError.panic

/-- Embeds `SafeMem::write_long_normal` (memory.rs lines 149-154): low word 0,
high word `i32::MIN as u32 = 0x8000_0000`, then the 32-byte magnitude at
`ptr + 8`. -/
def SafeMem.write_long_normal (s : SafeMem) (ptr : ℕ) (fr : ℤ) :
    Except RtError SafeMem :=
  match s.write_u32 ptr 0 with
  | Except.error e => Except.error e
  | Except.ok s2 =>
    match s2.write_u32 (ptr + 4) 2147483648 with
    | Except.error e => Except.error e
    | Except.ok s3 => s3.write_big (ptr + 8) fr

/-- Embeds `SafeMem::write_fr` (memory.rs lines 92-104). -/
def SafeMem.write_fr (s : SafeMem) (ptr : ℕ) (fr : ℤ) : Except RtError SafeMem :=
  if fr < s.short_max ∧ s.short_min < fr then
    if 0 ≤ fr then s.write_short_positive ptr fr
    else s.write_short_negative ptr fr
  else s.write_long_normal ptr fr

/-- Embeds `SafeMem::read_big` (memory.rs lines 170-179): slices
`buf[ptr..ptr + num_bytes*32]` (panics when that range exceeds the
buffer), then `BigInteger256::read` consumes exactly 32 bytes of the
slice (failing — hence `unwrap` panicking — when the slice is shorter
than 32 bytes). -/
def SafeMem.read_big (s : SafeMem) (ptr num_bytes : ℕ) : Except RtError ℤ :=
  if ptr + num_bytes * 32 ≤ s.mem.size then
    if 32 ≤ num_bytes * 32 then
      Except.ok ((readBytesLE s.mem ptr 32 : ℕ) : ℤ)
    else Except.error RtError.panic
  else Except.error RtError.panic

/-- Embeds `SafeMem::read_fr` (memory.rs lines 108-126).  Note the units: the
header words are read through `view::<u32>()` at cell indices `ptr + 1`
and `ptr` (byte offsets `4*ptr + 4` and `4*ptr`), while the payload
reads via `read_big` are byte-addressed at `ptr + 8` and `ptr`. -/
def SafeMem.read_fr (s : SafeMem) (ptr : ℕ) : Except RtError ℤ :=
  match s.mem.viewU32 (ptr + 1) with
  | Except.error e => Except.error e
  | Except.ok h =>
    if Nat.land h 2147483648 ≠ 0 then
      s.read_big (ptr + 8) s.n32
    else
      match s.read_big ptr 4 with
      | Except.error e => Except.error e
      | Except.ok res =>
        match s.mem.viewU32 ptr with
        | Except.error e => Except.error e
        | Except.ok l =>
          if Nat.land l 2147483648 ≠ 0 then Except.ok (res - 4294967296)
          else Except.ok res

/-- The three code paths `write_fr` can take. -/
inductive WriteBranch
  | shortPositive
  | shortNegative
  | long
deriving DecidableEq

/-- The branch `write_fr` selects for a value, read off from the
conditions of memory.rs lines 93-101. -/
def SafeMem.writeBranch (s : SafeMem) (fr : ℤ) : WriteBranch :=
  if fr < s.short_max ∧ s.short_min < fr then
    if 0 ≤ fr then WriteBranch.shortPositive else WriteBranch.shortNegative
  else WriteBranch.long

/-- Encode then decode at the same slot offset. -/
def roundTrip (s : SafeMem) (ptr : ℕ) (v : ℤ) : Except RtError ℤ :=
  match s.write_fr ptr v with
  | Except.error e => Except.error e
  | Except.ok s2 => s2.read_fr ptr

/-- The decoder exactly as the spec describes it, for comparison with
the implementation: the high word `H` is the 4 bytes at byte offset
`ptr + 4`; if its most-significant bit is set the value is the 32-byte
little-endian integer at byte offset `ptr + 8`; otherwise the value is
the 32-byte little-endian integer at `ptr`, minus `2^32` exactly when
the low word (the 4 bytes at `ptr`) has its most-significant bit set. -/
def read_fr_specByte (s : SafeMem) (ptr : ℕ) : ℤ :=
  let h := readBytesLE s.mem (ptr + 4) 4
  if Nat.land h 2147483648 ≠ 0 then
    ((readBytesLE s.mem (ptr + 8) 32 : ℕ) : ℤ)
  else
    let res : ℤ := ((readBytesLE s.mem ptr 32 : ℕ) : ℤ)
    let l := readBytesLE s.mem ptr 4
    if Nat.land l 2147483648 ≠ 0 then res - 4294967296 else res

/-- One allocation request (which of the two allocator entry points is
called). -/
inductive AllocOp
  | word
  | fr
deriving DecidableEq

/-- The slot size each allocator call reserves: 8 bytes for
`alloc_u32`, `8 * 4 + 8 = 40` bytes for `alloc_fr`. -/
def allocOpSize : AllocOp → ℕ
  | AllocOp.word => 8
  | AllocOp.fr => 8 * 4 + 8

/-- Total of the reserved sizes of a sequence of allocations. -/
def sumAllocSizes (ops : List AllocOp) : ℕ :=
  ops.foldr (fun op acc => allocOpSize op + acc) 0

/-- Dispatch one allocation request to the corresponding allocator
entry point. -/
def SafeMem.allocStep (s : SafeMem) : AllocOp → Except RtError (ℕ × SafeMem)
  | AllocOp.word => s.alloc_u32
  | AllocOp.fr => s.alloc_fr

/-- Run a sequence of allocator calls, collecting the returned offsets. -/
def SafeMem.runAllocs (s : SafeMem) : List AllocOp → Except RtError (List ℕ × SafeMem)
  | [] => Except.ok ([], s)
  | op :: rest =>
    match s.allocStep op with
    | Except.error e => Except.error e
    | Except.ok (p, s2) =>
      match s2.runAllocs rest with
      | Except.error e => Except.error e
      | Except.ok (ps, s3) => Except.ok (p :: ps, s3)

/-- The value of the free pointer: the little-endian `u32` stored in the
first 4 bytes of the buffer. -/
def freePosVal (s : SafeMem) : ℕ :=
  readBytesLE s.mem 0 4

/-- The all-zero 64 KiB memory a fresh one-page wasmer instance
provides. -/
def zero64k : Mem :=
  ⟨65536, fun _ => 0⟩

/-- A 64 KiB memory whose only nonzero bytes are at offsets 9 and 10;
byte 9 makes the spec-described high word at byte offset `2 + 4` carry
the sign marker, while the `u32` cell at index `2 + 1` stays zero. -/
def c5mem : Mem :=
  ⟨65536, fun i => if i = 9 then 128 else if i = 10 then 1 else 0⟩

/-- A 64 KiB memory with a single stale nonzero byte at offset 8 —
inside a field slot at offset 0 but beyond the 8 bytes a short-form
write touches. -/
def c9mem : Mem :=
  ⟨65536, fun i => if i = 8 then 1 else 0⟩

/-- A small 136-byte zeroed buffer. -/
def m136 : Mem :=
  ⟨136, fun _ => 0⟩

/-- A tiny 8-byte zeroed buffer, for out-of-bounds scenarios. -/
def mem8 : Mem :=
  ⟨8, fun _ => 0⟩

/-! ## Byte-level lemmas -/

@[simp] lemma Mem.setByte_size (m : Mem) (i v : ℕ) : (m.setByte i v).size = m.size := rfl

@[simp] lemma writeBytesLE_size (n : ℕ) : ∀ (m : Mem) (ptr num : ℕ),
    (writeBytesLE m ptr num n).size = m.size := by
  induction n with
  | zero => intro m ptr num; rfl
  | succ n ih => intro m ptr num; simp [writeBytesLE, ih]

lemma writeBytesLE_byte_of_lt (n : ℕ) : ∀ (m : Mem) (ptr num i : ℕ), i < ptr →
    (writeBytesLE m ptr num n).byte i = m.byte i := by
  induction n with
  | zero => intro m ptr num i _; rfl
  | succ n ih =>
    intro m ptr num i hi
    show (writeBytesLE (m.setByte ptr (num % 256)) (ptr + 1) (num / 256) n).byte i = _
    rw [ih _ _ _ _ (by omega)]
    simp [Mem.setByte]
    intro h; omega

lemma writeBytesLE_byte_of_ge (n : ℕ) : ∀ (m : Mem) (ptr num i : ℕ), ptr + n ≤ i →
    (writeBytesLE m ptr num n).byte i = m.byte i := by
  induction n with
  | zero => intro m ptr num i _; rfl
  | succ n ih =>
    intro m ptr num i hi
    show (writeBytesLE (m.setByte ptr (num % 256)) (ptr + 1) (num / 256) n).byte i = _
    rw [ih _ _ _ _ (by omega)]
    simp [Mem.setByte]
    intro h; omega

lemma readBytesLE_congr (n : ℕ) : ∀ (m1 m2 : Mem) (ptr : ℕ),
    (∀ i, i < n → m1.byte (ptr + i) = m2.byte (ptr + i)) →
    readBytesLE m1 ptr n = readBytesLE m2 ptr n := by
  induction n with
  | zero => intro m1 m2 ptr _; rfl
  | succ n ih =>
    intro m1 m2 ptr h
    show m1.byte ptr + 256 * readBytesLE m1 (ptr + 1) n
        = m2.byte ptr + 256 * readBytesLE m2 (ptr + 1) n
    rw [ih m1 m2 (ptr + 1) (fun i hi => by
      have := h (1 + i) (by omega)
      simpa [Nat.add_assoc] using this)]
    have h0 := h 0 (by omega)
    simp at h0
    rw [h0]

lemma readBytesLE_of_zero (n : ℕ) : ∀ (m : Mem) (ptr : ℕ),
    (∀ i, i < n → m.byte (ptr + i) = 0) → readBytesLE m ptr n = 0 := by
  induction n with
  | zero => intro m ptr _; rfl
  | succ n ih =>
    intro m ptr h
    show m.byte ptr + 256 * readBytesLE m (ptr + 1) n = 0
    rw [ih m (ptr + 1) (fun i hi => by
      have := h (1 + i) (by omega)
      simpa [Nat.add_assoc] using this)]
    have h0 := h 0 (by omega)
    simp at h0
    simp [h0]

lemma mod_digit_split (num K : ℕ) (hK : 0 < K) :
    num % (256 * K) = num % 256 + 256 * (num / 256 % K) := by
  have hnum : num = (num % 256 + 256 * (num / 256 % K)) + (256 * K) * (num / 256 / K) := by
    have h1 : num % 256 + 256 * (num / 256) = num := Nat.mod_add_div num 256
    have h2 : num / 256 % K + K * (num / 256 / K) = num / 256 := Nat.mod_add_div (num / 256) K
    calc num = num % 256 + 256 * (num / 256) := h1.symm
      _ = num % 256 + 256 * (num / 256 % K + K * (num / 256 / K)) := by rw [h2]
      _ = (num % 256 + 256 * (num / 256 % K)) + (256 * K) * (num / 256 / K) := by ring
  have hlt : num % 256 + 256 * (num / 256 % K) < 256 * K := by
    have ha : num % 256 < 256 := Nat.mod_lt _ (by omega)
    have hb : num / 256 % K < K := Nat.mod_lt _ hK
    have hb2 : num / 256 % K + 1 ≤ K := hb
    have : 256 * (num / 256 % K) + 256 ≤ 256 * K := by
      calc 256 * (num / 256 % K) + 256 = 256 * (num / 256 % K + 1) := by ring
        _ ≤ 256 * K := Nat.mul_le_mul_left 256 hb2
    omega
  conv_lhs => rw [hnum]
  rw [Nat.add_mul_mod_self_left]
  exact Nat.mod_eq_of_lt hlt

lemma readBytesLE_writeBytesLE (n : ℕ) : ∀ (m : Mem) (ptr num : ℕ),
    readBytesLE (writeBytesLE m ptr num n) ptr n = num % 256 ^ n := by
  induction n with
  | zero => intro m ptr num; simp [readBytesLE, writeBytesLE, Nat.mod_one]
  | succ n ih =>
    intro m ptr num
    show readBytesLE (writeBytesLE (m.setByte ptr (num % 256)) (ptr + 1) (num / 256) n) ptr (n + 1)
        = num % 256 ^ (n + 1)
    show (writeBytesLE (m.setByte ptr (num % 256)) (ptr + 1) (num / 256) n).byte ptr
        + 256 * readBytesLE (writeBytesLE (m.setByte ptr (num % 256)) (ptr + 1) (num / 256) n) (ptr + 1) n
        = num % 256 ^ (n + 1)
    rw [writeBytesLE_byte_of_lt _ _ _ _ _ (by omega)]
    rw [ih]
    have hset : (m.setByte ptr (num % 256)).byte ptr = num % 256 := by simp [Mem.setByte]
    rw [hset]
    have : (256 : ℕ) ^ (n + 1) = 256 * 256 ^ n := by rw [pow_succ]; ring
    rw [this, mod_digit_split num (256 ^ n) (Nat.pos_pow_of_pos n (by omega))]

lemma readBytesLE_split (a : ℕ) : ∀ (m : Mem) (ptr b : ℕ),
    readBytesLE m ptr (a + b) = readBytesLE m ptr a + 256 ^ a * readBytesLE m (ptr + a) b := by
  induction a with
  | zero => intro m ptr b; simp [readBytesLE]
  | succ a ih =>
    intro m ptr b
    have h1 : a + 1 + b = (a + b) + 1 := by omega
    rw [h1]
    show m.byte ptr + 256 * readBytesLE m (ptr + 1) (a + b) = _
    rw [ih]
    show m.byte ptr + 256 * (readBytesLE m (ptr + 1) a + 256 ^ a * readBytesLE m (ptr + 1 + a) b)
        = (m.byte ptr + 256 * readBytesLE m (ptr + 1) a) + 256 ^ (a + 1) * readBytesLE m (ptr + (a + 1)) b
    have h2 : ptr + 1 + a = ptr + (a + 1) := by omega
    rw [h2, pow_succ]
    ring

/-! ## Most-significant-bit lemmas for the `& 0x8000_0000` tests -/

lemma land_msb_eq_zero {v : ℕ} (h : v < 2147483648) : Nat.land v 2147483648 = 0 := by
  have h31 : (2147483648 : ℕ) = 2 ^ 31 := by norm_num
  have hand : v &&& 2 ^ 31 = (v.testBit 31).toNat * 2 ^ 31 := Nat.and_two_pow v 31
  have hbit : v.testBit 31 = false := by
    apply Nat.testBit_lt_two_pow
    omega
  show v &&& 2147483648 = 0
  rw [h31, hand, hbit]
  simp

lemma land_msb_ne_zero {v : ℕ} (h1 : 2147483648 ≤ v) (h2 : v < 4294967296) :
    Nat.land v 2147483648 ≠ 0 := by
  have h31 : (2147483648 : ℕ) = 2 ^ 31 := by norm_num
  have hand : v &&& 2 ^ 31 = (v.testBit 31).toNat * 2 ^ 31 := Nat.and_two_pow v 31
  have hdiv : v / 2 ^ 31 = 1 := by
    have : (2 : ℕ) ^ 31 = 2147483648 := by norm_num
    rw [this]
    omega
  have hbit : v.testBit 31 = true := by
    rw [Nat.testBit_to_div_mod, hdiv]
    decide
  show v &&& 2147483648 ≠ 0
  rw [h31, hand, hbit]
  norm_num

/-! ## Projections of `SafeMem.new` -/

@[simp] lemma new_mem (m : Mem) (n : ℕ) (p : ℤ) : (SafeMem.new m n p).mem = m := rfl

@[simp] lemma new_short_max (m : Mem) (n : ℕ) (p : ℤ) :
    (SafeMem.new m n p).short_max = 2147483648 := rfl

@[simp] lemma new_short_min (m : Mem) (n : ℕ) (p : ℤ) :
    (SafeMem.new m n p).short_min = -2147483648 := by
  show bigIntFromBiguint BigIntSign.noSign frModulus - 2147483648 = -2147483648
  simp [bigIntFromBiguint]

@[simp] lemma new_prime (m : Mem) (n : ℕ) (p : ℤ) : (SafeMem.new m n p).prime = p := rfl

@[simp] lemma new_n32 (m : Mem) (n : ℕ) (p : ℤ) : (SafeMem.new m n p).n32 = n := rfl

/-! ## Slot-level lemmas: reading back what the writers wrote -/

lemma shortSlot_read4_lo (m : Mem) (ptr L : ℕ) (hL : L < 4294967296) :
    readBytesLE (writeBytesLE (writeBytesLE m ptr L 4) (ptr + 4) 0 4) ptr 4 = L := by
  rw [readBytesLE_congr 4 _ (writeBytesLE m ptr L 4) ptr
    (fun i hi => writeBytesLE_byte_of_lt 4 _ (ptr + 4) 0 (ptr + i) (by omega))]
  rw [readBytesLE_writeBytesLE]
  have h4 : (256 : ℕ) ^ 4 = 4294967296 := by norm_num
  rw [h4, Nat.mod_eq_of_lt hL]

lemma shortSlot_read4_hi (m : Mem) (ptr L : ℕ) :
    readBytesLE (writeBytesLE (writeBytesLE m ptr L 4) (ptr + 4) 0 4) (ptr + 4) 4 = 0 := by
  rw [readBytesLE_writeBytesLE]
  simp

lemma shortSlot_read24_tail (m : Mem) (ptr L : ℕ)
    (hz : ∀ i, 8 ≤ i → i < 32 → m.byte (ptr + i) = 0) :
    readBytesLE (writeBytesLE (writeBytesLE m ptr L 4) (ptr + 4) 0 4) (ptr + 8) 24 = 0 := by
  apply readBytesLE_of_zero
  intro i hi
  rw [writeBytesLE_byte_of_ge 4 _ (ptr + 4) 0 (ptr + 8 + i) (by omega)]
  rw [writeBytesLE_byte_of_ge 4 _ ptr L (ptr + 8 + i) (by omega)]
  have := hz (8 + i) (by omega) (by omega)
  have harith : ptr + (8 + i) = ptr + 8 + i := by omega
  rw [harith] at this
  exact this

lemma shortSlot_read32 (m : Mem) (ptr L : ℕ) (hL : L < 4294967296)
    (hz : ∀ i, 8 ≤ i → i < 32 → m.byte (ptr + i) = 0) :
    readBytesLE (writeBytesLE (writeBytesLE m ptr L 4) (ptr + 4) 0 4) ptr 32 = L := by
  have h32 : (32 : ℕ) = 4 + 28 := by norm_num
  rw [h32, readBytesLE_split]
  have h28 : (28 : ℕ) = 4 + 24 := by norm_num
  rw [h28, readBytesLE_split]
  have h44 : ptr + 4 + 4 = ptr + 8 := by omega
  rw [h44, shortSlot_read4_lo m ptr L hL, shortSlot_read4_hi, shortSlot_read24_tail m ptr L hz]
  ring

lemma longSlot_read4_at4 (m : Mem) (ptr mag : ℕ) :
    readBytesLE
      (writeBytesLE (writeBytesLE (writeBytesLE m ptr 0 4) (ptr + 4) 2147483648 4) (ptr + 8) mag 32)
      (ptr + 4) 4 = 2147483648 := by
  rw [readBytesLE_congr 4 _ (writeBytesLE (writeBytesLE m ptr 0 4) (ptr + 4) 2147483648 4) (ptr + 4)
    (fun i hi => writeBytesLE_byte_of_lt 32 _ (ptr + 8) mag (ptr + 4 + i) (by omega))]
  rw [readBytesLE_writeBytesLE]
  norm_num

lemma longSlot_read32_at8 (m : Mem) (ptr mag : ℕ) (hmag : mag < 2 ^ 256) :
    readBytesLE
      (writeBytesLE (writeBytesLE (writeBytesLE m ptr 0 4) (ptr + 4) 2147483648 4) (ptr + 8) mag 32)
      (ptr + 8) 32 = mag := by
  rw [readBytesLE_writeBytesLE]
  have h256 : (256 : ℕ) ^ 32 = 2 ^ 256 := by norm_num
  rw [h256, Nat.mod_eq_of_lt hmag]

/-! ## Evaluation lemmas for `write_fr` and `read_fr` -/

lemma viewU32_eval (m : Mem) (idx : ℕ) (h : (idx + 1) * 4 ≤ m.size) :
    m.viewU32 idx = Except.ok (readBytesLE m (idx * 4) 4) := by
  unfold Mem.viewU32
  rw [if_pos h]

lemma write_fr_short_positive_eval (s : SafeMem) (ptr : ℕ) (v : ℤ)
    (hmax : s.short_max = 2147483648) (hmin : s.short_min = -2147483648)
    (h0 : 0 ≤ v) (hv : v < 2147483648) (hsz : ptr + 8 ≤ s.mem.size) :
    s.write_fr ptr v
      = Except.ok { s with mem := writeBytesLE (writeBytesLE s.mem ptr v.toNat 4) (ptr + 4) 0 4 } := by
  unfold SafeMem.write_fr
  rw [hmax, hmin, if_pos ⟨hv, by omega⟩, if_pos h0]
  unfold SafeMem.write_short_positive
  rw [if_pos ⟨by omega, by omega⟩]
  have hmod : v.emod 4294967296 = v := Int.emod_eq_of_lt h0 (by omega)
  rw [hmod]
  unfold SafeMem.write_u32
  rw [if_pos (by omega)]
  have hsz2 : (writeBytesLE s.mem ptr v.toNat 4).size = s.mem.size := writeBytesLE_size 4 s.mem ptr v.toNat
  simp only [hsz2]
  rw [if_pos (by omega)]
  rw [hmax, hmin]

lemma write_fr_short_negative_eval (s : SafeMem) (ptr : ℕ) (v : ℤ)
    (hmax : s.short_max = 2147483648) (hmin : s.short_min = -2147483648)
    (hlo : -2147483648 < v) (hhi : v < 0) (hsz : ptr + 8 ≤ s.mem.size) :
    s.write_fr ptr v
      = Except.ok { s with mem := writeBytesLE (writeBytesLE s.mem ptr (v + 4294967296).toNat 4) (ptr + 4) 0 4 } := by
  unfold SafeMem.write_fr
  rw [hmax, hmin, if_pos ⟨by omega, hlo⟩, if_neg (by omega)]
  unfold SafeMem.write_short_negative
  rw [hmax, hmin]
  have hnum : v - -2147483648 - 2147483648 + 4294967296 = v + 4294967296 := by ring
  rw [hnum, if_pos ⟨by omega, by omega⟩]
  unfold SafeMem.write_u32
  rw [if_pos (by omega)]
  have hsz2 : (writeBytesLE s.mem ptr (v + 4294967296).toNat 4).size = s.mem.size :=
    writeBytesLE_size 4 s.mem ptr _
  simp only [hsz2]
  rw [if_pos (by omega)]
  rw [hmax, hmin]

lemma write_fr_long_eval (s : SafeMem) (ptr : ℕ) (v : ℤ)
    (hcond : ¬ (v < s.short_max ∧ s.short_min < v))
    (hmag : v.natAbs < 2 ^ 256) (hsz : ptr + 40 ≤ s.mem.size) :
    s.write_fr ptr v
      = Except.ok { s with mem := writeBytesLE (writeBytesLE (writeBytesLE s.mem ptr 0 4) (ptr + 4) 2147483648 4) (ptr + 8) v.natAbs 32 } := by
  unfold SafeMem.write_fr
  rw [if_neg hcond]
  unfold SafeMem.write_long_normal
  unfold SafeMem.write_u32
  rw [if_pos (by omega)]
  have hsz2 : (writeBytesLE s.mem ptr 0 4).size = s.mem.size := writeBytesLE_size 4 s.mem ptr 0
  simp only [hsz2]
  rw [if_pos (by omega)]
  unfold SafeMem.write_big
  have hsz3 : (writeBytesLE (writeBytesLE s.mem ptr 0 4) (ptr + 4) 2147483648 4).size = s.mem.size := by
    rw [writeBytesLE_size, writeBytesLE_size]
  simp only [hsz3]
  rw [if_pos hmag, if_pos (by omega)]

lemma read_fr_eval_short (s : SafeMem) (H L res : ℕ)
    (hH : s.mem.viewU32 1 = Except.ok H) (hHmsb : Nat.land H 2147483648 = 0)
    (hres : s.read_big 0 4 = Except.ok ((res : ℕ) : ℤ))
    (hL : s.mem.viewU32 0 = Except.ok L) :
    s.read_fr 0
      = if Nat.land L 2147483648 ≠ 0 then Except.ok (((res : ℕ) : ℤ) - 4294967296)
        else Except.ok ((res : ℕ) : ℤ) := by
  unfold SafeMem.read_fr
  simp only [Nat.zero_add]
  rw [hH]
  dsimp only
  rw [hHmsb]
  simp only [ne_eq, not_true_eq_false, if_false]
  rw [hres]
  dsimp only
  rw [hL]

lemma read_fr_eval_long (s : SafeMem) (H : ℕ)
    (hH : s.mem.viewU32 1 = Except.ok H) (hmsb : Nat.land H 2147483648 ≠ 0) :
    s.read_fr 0 = s.read_big 8 s.n32 := by
  unfold SafeMem.read_fr
  simp only [Nat.zero_add]
  rw [hH]
  dsimp only
  rw [if_pos hmsb]

lemma read_fr_short_slot_zero (s2 : SafeMem) (m : Mem) (L : ℕ)
    (hmem : s2.mem = writeBytesLE (writeBytesLE m 0 L 4) (0 + 4) 0 4)
    (hL : L < 4294967296) (hsz : m.size = 65536)
    (hz : ∀ i, 8 ≤ i → i < 32 → m.byte i = 0) :
    s2.read_fr 0
      = if Nat.land L 2147483648 ≠ 0 then Except.ok (((L : ℕ) : ℤ) - 4294967296)
        else Except.ok ((L : ℕ) : ℤ) := by
  have hsz2 : s2.mem.size = 65536 := by
    rw [hmem, writeBytesLE_size, writeBytesLE_size, hsz]
  have hz0 : ∀ i, 8 ≤ i → i < 32 → m.byte (0 + i) = 0 := by
    intro i h1 h2
    rw [Nat.zero_add]
    exact hz i h1 h2
  have hH : s2.mem.viewU32 1 = Except.ok 0 := by
    rw [viewU32_eval _ 1 (by omega)]
    have h14 : (1 : ℕ) * 4 = 0 + 4 := by norm_num
    rw [h14, hmem, shortSlot_read4_hi]
  have hres : s2.read_big 0 4 = Except.ok ((L : ℕ) : ℤ) := by
    unfold SafeMem.read_big
    rw [if_pos (by omega), if_pos (by omega)]
    rw [hmem, shortSlot_read32 m 0 L hL hz0]
  have hLw : s2.mem.viewU32 0 = Except.ok L := by
    rw [viewU32_eval _ 0 (by omega)]
    have h04 : (0 : ℕ) * 4 = 0 := by norm_num
    rw [h04, hmem, shortSlot_read4_lo m 0 L hL]
  exact read_fr_eval_short s2 0 L L hH (by decide) hres hLw

lemma read_fr_long_slot_zero (sb : SafeMem) (mag : ℕ)
    (hmag : mag < 2 ^ 256) (hsz : sb.mem.size = 65536)
    (hn1 : 1 ≤ sb.n32) (hn2 : 8 + sb.n32 * 32 ≤ 65536) :
    SafeMem.read_fr { sb with mem := writeBytesLE (writeBytesLE (writeBytesLE sb.mem 0 0 4) (0 + 4) 2147483648 4) (0 + 8) mag 32 } 0 = Except.ok ((mag : ℕ) : ℤ) := by
  set s2 : SafeMem := { sb with mem := writeBytesLE (writeBytesLE (writeBytesLE sb.mem 0 0 4) (0 + 4) 2147483648 4) (0 + 8) mag 32 } with hs2
  have m := sb.mem
  have hmem : s2.mem
      = writeBytesLE (writeBytesLE (writeBytesLE sb.mem 0 0 4) (0 + 4) 2147483648 4) (0 + 8) mag 32 := rfl
  show s2.read_fr 0 = Except.ok ((mag : ℕ) : ℤ)
  have hsz2 : s2.mem.size = 65536 := by
    rw [hmem, writeBytesLE_size, writeBytesLE_size, writeBytesLE_size, hsz]
  have hH : s2.mem.viewU32 1 = Except.ok 2147483648 := by
    rw [viewU32_eval _ 1 (by omega)]
    have h14 : (1 : ℕ) * 4 = 0 + 4 := by norm_num
    rw [h14, hmem, longSlot_read4_at4]
  rw [read_fr_eval_long s2 2147483648 hH (by decide)]
  unfold SafeMem.read_big
  have hn1x : 1 ≤ s2.n32 := hn1
  have h32n : 32 ≤ s2.n32 * 32 := by
    have := Nat.mul_le_mul_right 32 hn1x
    omega
  have hn2x : 8 + s2.n32 * 32 ≤ 65536 := hn2
  rw [if_pos (by omega), if_pos (by omega)]
  have h08 : (8 : ℕ) = 0 + 8 := by norm_num
  rw [h08, hmem, longSlot_read32_at8 sb.mem 0 mag hmag]

/-! ## Claim C2: short-range round trip -/

/-- C2: for every integer `v` with `shortMin < v < shortMax` (the bounds
the constructed `SafeMem` actually carries), writing `v` with `write_fr`
and reading it back with `read_fr` at slot offset 0 of a fresh zeroed
memory returns exactly `v`. -/
theorem c2_short_range_roundtrip (v : ℤ) (n32 : ℕ) (prime : ℤ)
    (hlo : (SafeMem.new zero64k n32 prime).short_min < v)
    (hhi : v < (SafeMem.new zero64k n32 prime).short_max) :
    roundTrip (SafeMem.new zero64k n32 prime) 0 v = Except.ok v := by
  have hmax : (SafeMem.new zero64k n32 prime).short_max = 2147483648 := new_short_max _ _ _
  have hmin : (SafeMem.new zero64k n32 prime).short_min = -2147483648 := new_short_min _ _ _
  rw [hmax] at hhi
  rw [hmin] at hlo
  have hsz : (SafeMem.new zero64k n32 prime).mem.size = 65536 := rfl
  have hz : ∀ i, 8 ≤ i → i < 32 → (SafeMem.new zero64k n32 prime).mem.byte i = 0 := by
    intro i _ _
    rfl
  unfold roundTrip
  by_cases h0 : 0 ≤ v
  · rw [write_fr_short_positive_eval _ 0 v hmax hmin h0 hhi (by omega)]
    dsimp only
    rw [read_fr_short_slot_zero _ (SafeMem.new zero64k n32 prime).mem v.toNat rfl
      (by omega) hsz hz]
    rw [land_msb_eq_zero (by omega)]
    simp only [ne_eq, not_true_eq_false, if_false]
    congr 1
    omega
  · push_neg at h0
    rw [write_fr_short_negative_eval _ 0 v hmax hmin hlo h0 (by omega)]
    dsimp only
    rw [read_fr_short_slot_zero _ (SafeMem.new zero64k n32 prime).mem (v + 4294967296).toNat rfl
      (by omega) hsz hz]
    rw [if_pos (land_msb_ne_zero (by omega) (by omega))]
    congr 1
    omega

/-- Witness for C2 at the repository's own test value `-1_000_000`. -/
theorem c2_short_range_roundtrip_witness :
    roundTrip (SafeMem.new zero64k 2 (frModulus : ℤ)) 0 (-1000000) = Except.ok (-1000000) :=
  c2_short_range_roundtrip (-1000000) 2 (frModulus : ℤ) (by decide) (by decide)

/-! ## Claim C3: long-range round trip for canonical nonnegative values -/

/-- C3: for every `v` with `0 ≤ v < P` lying outside the short range,
writing then reading at slot offset 0 of a fresh zeroed memory returns
exactly `v` (long path). -/
theorem c3_long_range_roundtrip (v : ℤ) (n32 : ℕ) (prime : ℤ)
    (h0 : 0 ≤ v) (hP : v < (frModulus : ℤ))
    (hout : ¬ (v < (SafeMem.new zero64k n32 prime).short_max
      ∧ (SafeMem.new zero64k n32 prime).short_min < v))
    (hn1 : 1 ≤ n32) (hn2 : 8 + n32 * 32 ≤ 65536) :
    roundTrip (SafeMem.new zero64k n32 prime) 0 v = Except.ok v := by
  have hmag : v.natAbs < 2 ^ 256 := by
    have h1 : (v.natAbs : ℤ) < (2 : ℤ) ^ 256 := by
      calc (v.natAbs : ℤ) = v := Int.natAbs_of_nonneg h0
        _ < (frModulus : ℤ) := hP
        _ < (2 : ℤ) ^ 256 := by norm_num [frModulus]
    exact_mod_cast h1
  have hsz : (SafeMem.new zero64k n32 prime).mem.size = 65536 := rfl
  unfold roundTrip
  rw [write_fr_long_eval _ 0 v hout hmag (by omega)]
  dsimp only
  rw [read_fr_long_slot_zero (SafeMem.new zero64k n32 prime) v.natAbs hmag rfl hn1 hn2]
  congr 1
  omega

/-- Witness for C3 at the repository's own test value `500_000_000_000`. -/
theorem c3_long_range_roundtrip_witness :
    roundTrip (SafeMem.new zero64k 1 (frModulus : ℤ)) 0 500000000000
      = Except.ok 500000000000 :=
  c3_long_range_roundtrip 500000000000 1 (frModulus : ℤ) (by decide) (by decide) (by decide)
    (by decide) (by decide)

/-! ## The `prime` field is dead in the codec: pushing it through the writers -/

lemma write_u32_prime (s : SafeMem) (p : ℤ) (ptr num : ℕ) :
    SafeMem.write_u32 { s with prime := p } ptr num
      = (s.write_u32 ptr num).map (fun t => { t with prime := p }) := by
  unfold SafeMem.write_u32
  by_cases h : ptr + 4 ≤ s.mem.size
  · rw [if_pos h, if_pos h]
    rfl
  · rw [if_neg h, if_neg h]
    rfl

lemma write_big_prime (s : SafeMem) (p : ℤ) (ptr : ℕ) (num : ℤ) :
    SafeMem.write_big { s with prime := p } ptr num
      = (s.write_big ptr num).map (fun t => { t with prime := p }) := by
  unfold SafeMem.write_big
  by_cases h1 : num.natAbs < 2 ^ 256
  · by_cases h2 : ptr + 32 ≤ s.mem.size
    · rw [if_pos h1, if_pos h1, if_pos h2, if_pos h2]
      rfl
    · rw [if_pos h1, if_pos h1, if_neg h2, if_neg h2]
      rfl
  · rw [if_neg h1, if_neg h1]
    rfl

lemma write_short_positive_prime (s : SafeMem) (p : ℤ) (ptr : ℕ) (fr : ℤ) :
    SafeMem.write_short_positive { s with prime := p } ptr fr
      = (s.write_short_positive ptr fr).map (fun t => { t with prime := p }) := by
  unfold SafeMem.write_short_positive
  by_cases h : -2147483648 ≤ fr ∧ fr ≤ 2147483647
  · rw [if_pos h, if_pos h, write_u32_prime]
    cases hw : s.write_u32 ptr (fr.emod 4294967296).toNat with
    | error e => rfl
    | ok s2 =>
      dsimp only [Except.map]
      rw [write_u32_prime]
      cases s2.write_u32 (ptr + 4) 0 <;> rfl
  · rw [if_neg h, if_neg h]
    rfl

lemma write_short_negative_prime (s : SafeMem) (p : ℤ) (ptr : ℕ) (fr : ℤ) :
    SafeMem.write_short_negative { s with prime := p } ptr fr
      = (s.write_short_negative ptr fr).map (fun t => { t with prime := p }) := by
  unfold SafeMem.write_short_negative
  dsimp only
  by_cases h : 0 ≤ fr - s.short_min - s.short_max + 4294967296
    ∧ fr - s.short_min - s.short_max + 4294967296 ≤ 4294967295
  · rw [if_pos h, if_pos h, write_u32_prime]
    cases hw : s.write_u32 ptr (fr - s.short_min - s.short_max + 4294967296).toNat with
    | error e => rfl
    | ok s2 =>
      dsimp only [Except.map]
      rw [write_u32_prime]
      cases s2.write_u32 (ptr + 4) 0 <;> rfl
  · rw [if_neg h, if_neg h]
    rfl

lemma write_long_normal_prime (s : SafeMem) (p : ℤ) (ptr : ℕ) (fr : ℤ) :
    SafeMem.write_long_normal { s with prime := p } ptr fr
      = (s.write_long_normal ptr fr).map (fun t => { t with prime := p }) := by
  unfold SafeMem.write_long_normal
  rw [write_u32_prime]
  cases hw : s.write_u32 ptr 0 with
  | error e => rfl
  | ok s2 =>
    dsimp only [Except.map]
    rw [write_u32_prime]
    cases hw2 : s2.write_u32 (ptr + 4) 2147483648 with
    | error e => rfl
    | ok s3 =>
      dsimp only [Except.map]
      rw [write_big_prime]
      cases s3.write_big (ptr + 8) fr <;> rfl

lemma write_fr_prime (s : SafeMem) (p : ℤ) (ptr : ℕ) (fr : ℤ) :
    SafeMem.write_fr { s with prime := p } ptr fr
      = (s.write_fr ptr fr).map (fun t => { t with prime := p }) := by
  unfold SafeMem.write_fr
  dsimp only
  by_cases h : fr < s.short_max ∧ s.short_min < fr
  · rw [if_pos h, if_pos h]
    by_cases h0 : 0 ≤ fr
    · rw [if_pos h0, if_pos h0, write_short_positive_prime]
    · rw [if_neg h0, if_neg h0, write_short_negative_prime]
  · rw [if_neg h, if_neg h, write_long_normal_prime]

/-! ## Claim C7: negative long-path values lose their sign -/

/-- C7: for `v ≤ -(2^31)` (the long path), `write_fr` stores `abs v`
— no reduction modulo any prime — so `read_fr` returns `-v`, which is
neither `v` nor the canonical residue `v mod P`; and the `prime` passed
to the constructor influences neither encoding nor decoding. -/
theorem c7_long_negative_drops_sign (v : ℤ) (n32 : ℕ) (p1 p2 : ℤ)
    (hv : v ≤ -(2 ^ 31)) (hmag : v.natAbs < 2 ^ 256)
    (hn1 : 1 ≤ n32) (hn2 : 8 + n32 * 32 ≤ 65536) :
    roundTrip (SafeMem.new zero64k n32 p1) 0 v = Except.ok (-v)
    ∧ -v ≠ v
    ∧ -v ≠ v % (frModulus : ℤ)
    ∧ ((SafeMem.new zero64k n32 p1).write_fr 0 v).map SafeMem.mem
        = ((SafeMem.new zero64k n32 p2).write_fr 0 v).map SafeMem.mem
    ∧ (SafeMem.new zero64k n32 p1).read_fr 0 = (SafeMem.new zero64k n32 p2).read_fr 0 := by
  have e31 : (2 : ℤ) ^ 31 = 2147483648 := by norm_num
  rw [e31] at hv
  have hsz : (SafeMem.new zero64k n32 p1).mem.size = 65536 := rfl
  have hcond : ¬ (v < (SafeMem.new zero64k n32 p1).short_max
      ∧ (SafeMem.new zero64k n32 p1).short_min < v) := by
    rw [new_short_max, new_short_min]
    intro hc
    omega
  have h1 : roundTrip (SafeMem.new zero64k n32 p1) 0 v = Except.ok (-v) := by
    unfold roundTrip
    rw [write_fr_long_eval _ 0 v hcond hmag (by omega)]
    dsimp only
    rw [read_fr_long_slot_zero (SafeMem.new zero64k n32 p1) v.natAbs hmag rfl hn1 hn2]
    congr 1
    omega
  have h3 : -v ≠ v % (frModulus : ℤ) := by
    intro heq
    set P : ℤ := (frModulus : ℤ) with hP
    have hdef : v % P = v - P * (v / P) := Int.emod_def v P
    set q := v / P with hq
    have h2v : 2 * v = P * q := by
      rw [hdef] at heq
      linarith
    have heven : Even (P * q) := ⟨v, by linarith⟩
    rcases Int.even_mul.mp heven with hPe | hqe
    · rw [Int.even_iff] at hPe
      rw [hP] at hPe
      norm_num [frModulus] at hPe
    · obtain ⟨r, hr⟩ := hqe
      rw [hr, mul_add] at h2v
      have hvPr : v = P * r := by linarith
      have hm0 : v % P = 0 := by
        rw [hvPr]
        exact Int.mul_emod_right P r
      rw [hm0] at heq
      omega
  have h4 : ((SafeMem.new zero64k n32 p1).write_fr 0 v).map SafeMem.mem
      = ((SafeMem.new zero64k n32 p2).write_fr 0 v).map SafeMem.mem := by
    have hnew : SafeMem.new zero64k n32 p1 = { SafeMem.new zero64k n32 p2 with prime := p1 } := rfl
    rw [hnew, write_fr_prime]
    cases (SafeMem.new zero64k n32 p2).write_fr 0 v <;> rfl
  have h5 : (SafeMem.new zero64k n32 p1).read_fr 0 = (SafeMem.new zero64k n32 p2).read_fr 0 := rfl
  exact ⟨h1, by omega, h3, h4, h5⟩

/-- Witness for C7 at the repository's own test value `-500_000_000_000`
(with two different primes `P` and `7`). -/
theorem c7_long_negative_drops_sign_witness :
    roundTrip (SafeMem.new zero64k 1 (frModulus : ℤ)) 0 (-500000000000)
        = Except.ok (-(-500000000000))
    ∧ -(-500000000000 : ℤ) ≠ -500000000000
    ∧ -(-500000000000 : ℤ) ≠ -500000000000 % (frModulus : ℤ)
    ∧ ((SafeMem.new zero64k 1 (frModulus : ℤ)).write_fr 0 (-500000000000)).map SafeMem.mem
        = ((SafeMem.new zero64k 1 7).write_fr 0 (-500000000000)).map SafeMem.mem
    ∧ (SafeMem.new zero64k 1 (frModulus : ℤ)).read_fr 0 = (SafeMem.new zero64k 1 7).read_fr 0 :=
  c7_long_negative_drops_sign (-500000000000) 1 (frModulus : ℤ) 7 (by norm_num) (by norm_num)
    (by norm_num) (by norm_num)

/-! ## Claim C4: the short-negative encoding -/

/-- C4: for `shortMin < v < 0`, `write_fr` stores the low word
`L = v - shortMin - shortMax + 2^32` — an unsigned 32-bit value with
its most-significant bit set — and the high word 0. -/
theorem c4_short_negative_encoding (m : Mem) (ptr : ℕ) (v : ℤ) (n32 : ℕ) (prime : ℤ)
    (hlo : (SafeMem.new m n32 prime).short_min < v) (hhi : v < 0)
    (hsz : ptr + 8 ≤ m.size) :
    ∃ s2, (SafeMem.new m n32 prime).write_fr ptr v = Except.ok s2
      ∧ (readBytesLE s2.mem ptr 4 : ℤ)
          = v - (SafeMem.new m n32 prime).short_min - (SafeMem.new m n32 prime).short_max + 2 ^ 32
      ∧ Nat.land (readBytesLE s2.mem ptr 4) 2147483648 ≠ 0
      ∧ readBytesLE s2.mem ptr 4 < 2 ^ 32
      ∧ readBytesLE s2.mem (ptr + 4) 4 = 0 := by
  have hmax := new_short_max m n32 prime
  have hmin := new_short_min m n32 prime
  have hlo' : -2147483648 < v := by rw [hmin] at hlo; exact hlo
  have hw := write_fr_short_negative_eval (SafeMem.new m n32 prime) ptr v hmax hmin hlo' hhi hsz
  refine ⟨_, hw, ?_, ?_, ?_, ?_⟩
  all_goals dsimp only
  · rw [shortSlot_read4_lo _ ptr _ (by omega), hmax, hmin]
    have e32 : (2 : ℤ) ^ 32 = 4294967296 := by norm_num
    rw [e32]
    omega
  · rw [shortSlot_read4_lo _ ptr _ (by omega)]
    exact land_msb_ne_zero (by omega) (by omega)
  · rw [shortSlot_read4_lo _ ptr _ (by omega)]
    have e32 : (2 : ℕ) ^ 32 = 4294967296 := by norm_num
    rw [e32]
    omega
  · exact shortSlot_read4_hi _ ptr _

/-- Witness for C4 at `v = -1_000_000`, slot offset 0, fresh memory. -/
theorem c4_short_negative_encoding_witness :
    ∃ s2, (SafeMem.new zero64k 2 (frModulus : ℤ)).write_fr 0 (-1000000) = Except.ok s2
      ∧ (readBytesLE s2.mem 0 4 : ℤ)
          = -1000000 - (SafeMem.new zero64k 2 (frModulus : ℤ)).short_min
            - (SafeMem.new zero64k 2 (frModulus : ℤ)).short_max + 2 ^ 32
      ∧ Nat.land (readBytesLE s2.mem 0 4) 2147483648 ≠ 0
      ∧ readBytesLE s2.mem 0 4 < 2 ^ 32
      ∧ readBytesLE s2.mem (0 + 4) 4 = 0 :=
  c4_short_negative_encoding zero64k 0 (-1000000) 2 (frModulus : ℤ) (by decide) (by norm_num)
    (by decide)

/-! ## Claim C9: the short decode reads 32 bytes, not just the low word -/

/-- C9 counterexample: on a memory whose byte at offset 8 was already 1,
a short-form write of 5 at slot 0 decodes to `5 + 2^64`, not to the low
word 5 — the short writer leaves bytes `ptr+8 ..` untouched and the
32-byte decode picks them up. -/
theorem c9_short_decode_tail_counterexample :
    ∃ s2, (SafeMem.new c9mem 2 (frModulus : ℤ)).write_fr 0 5 = Except.ok s2
      ∧ readBytesLE s2.mem 0 4 = 5
      ∧ s2.read_fr 0 = Except.ok ((18446744073709551621 : ℕ) : ℤ)
      ∧ (18446744073709551621 : ℤ) ≠ 5 := by
  refine ⟨_, rfl, rfl, rfl, by norm_num⟩

/-- C9 amended: after a short-form write to a slot whose bytes at
offsets `ptr+8 .. ptr+31` are zero, the 32-byte little-endian decode
performed by the short path (`read_big ptr 4`) equals just the low word
`L`; the writer itself only writes bytes `ptr .. ptr+7`. -/
theorem c9_short_decode_amended (m : Mem) (ptr : ℕ) (v : ℤ) (n32 : ℕ) (prime : ℤ)
    (hz : ∀ i, 8 ≤ i → i < 32 → m.byte (ptr + i) = 0)
    (hlo : (SafeMem.new m n32 prime).short_min < v)
    (hhi : v < (SafeMem.new m n32 prime).short_max)
    (hsz : ptr + 128 ≤ m.size) :
    ∃ s2, (SafeMem.new m n32 prime).write_fr ptr v = Except.ok s2
      ∧ s2.read_big ptr 4 = Except.ok ((readBytesLE s2.mem ptr 4 : ℕ) : ℤ) := by
  have hmax := new_short_max m n32 prime
  have hmin := new_short_min m n32 prime
  have hlo' : -2147483648 < v := by rw [hmin] at hlo; exact hlo
  have hhi' : v < 2147483648 := by rw [hmax] at hhi; exact hhi
  have hms : (SafeMem.new m n32 prime).mem.size = m.size := rfl
  by_cases h0 : 0 ≤ v
  · have hw := write_fr_short_positive_eval (SafeMem.new m n32 prime) ptr v hmax hmin h0 hhi'
      (by omega)
    refine ⟨_, hw, ?_⟩
    unfold SafeMem.read_big
    dsimp only
    rw [new_mem]
    rw [if_pos (by rw [writeBytesLE_size, writeBytesLE_size]; omega),
      if_pos (by norm_num)]
    rw [shortSlot_read32 _ ptr _ (by omega) hz, shortSlot_read4_lo _ ptr _ (by omega)]
  · push_neg at h0
    have hw := write_fr_short_negative_eval (SafeMem.new m n32 prime) ptr v hmax hmin hlo' h0
      (by omega)
    refine ⟨_, hw, ?_⟩
    unfold SafeMem.read_big
    dsimp only
    rw [new_mem]
    rw [if_pos (by rw [writeBytesLE_size, writeBytesLE_size]; omega),
      if_pos (by norm_num)]
    rw [shortSlot_read32 _ ptr _ (by omega) hz, shortSlot_read4_lo _ ptr _ (by omega)]

/-- Witness for the amended C9 at `v = -3`, slot offset 0, fresh
memory. -/
theorem c9_short_decode_amended_witness :
    ∃ s2, (SafeMem.new zero64k 2 (frModulus : ℤ)).write_fr 0 (-3) = Except.ok s2
      ∧ s2.read_big 0 4 = Except.ok ((readBytesLE s2.mem 0 4 : ℕ) : ℤ) :=
  c9_short_decode_amended zero64k 0 (-3) 2 (frModulus : ℤ) (fun i _ _ => rfl) (by decide)
    (by decide) (by decide)

/-! ## Claim C1: the range classifier's constants and boundaries -/

/-- Lemma: `write_fr` dispatches exactly along `writeBranch` (memory.rs lines
93-101). -/
lemma write_fr_eq_branch (s : SafeMem) (ptr : ℕ) (fr : ℤ) :
    s.write_fr ptr fr
      = match s.writeBranch fr with
        | WriteBranch.shortPositive => s.write_short_positive ptr fr
        | WriteBranch.shortNegative => s.write_short_negative ptr fr
        | WriteBranch.long => s.write_long_normal ptr fr := by
  unfold SafeMem.write_fr SafeMem.writeBranch
  by_cases h : fr < s.short_max ∧ s.short_min < fr
  · by_cases h0 : 0 ≤ fr
    · rw [if_pos h, if_pos h, if_pos h0, if_pos h0]
    · rw [if_pos h, if_pos h, if_neg h0, if_neg h0]
  · rw [if_neg h, if_neg h]

/-- C1 counterexample: the constructed `short_min` is `-(2^31)`, not
`P - shortMax` — the `Sign::NoSign` in `SafeMem::new` zeroes the
modulus before the subtraction. -/
theorem c1_short_min_counterexample :
    (SafeMem.new zero64k 2 (frModulus : ℤ)).short_min = -(2 ^ 31)
    ∧ (SafeMem.new zero64k 2 (frModulus : ℤ)).short_min
        ≠ (frModulus : ℤ) - (SafeMem.new zero64k 2 (frModulus : ℤ)).short_max := by
  constructor
  · rw [new_short_min]
    norm_num
  · rw [new_short_min, new_short_max]
    norm_num [frModulus]

/-- C1 amended: `shortMax = 2^31` and `shortMin = -(2^31)` (the modulus
term is zeroed by the `Sign::NoSign` construction), and classification
is strict on both sides: `shortMax - 1` is short-positive, `shortMax`
is long, `shortMin + 1` is short-negative, `shortMin` is long. -/
theorem c1_classifier_amended (m : Mem) (n32 : ℕ) (prime : ℤ) :
    (SafeMem.new m n32 prime).short_max = 2 ^ 31
    ∧ (SafeMem.new m n32 prime).short_min = -(2 ^ 31)
    ∧ (SafeMem.new m n32 prime).writeBranch (2 ^ 31 - 1) = WriteBranch.shortPositive
    ∧ (SafeMem.new m n32 prime).writeBranch (2 ^ 31) = WriteBranch.long
    ∧ (SafeMem.new m n32 prime).writeBranch (-(2 ^ 31) + 1) = WriteBranch.shortNegative
    ∧ (SafeMem.new m n32 prime).writeBranch (-(2 ^ 31)) = WriteBranch.long := by
  have e31 : (2 : ℤ) ^ 31 = 2147483648 := by norm_num
  unfold SafeMem.writeBranch
  rw [new_short_max, new_short_min, e31]
  refine ⟨rfl, rfl, ?_, ?_, ?_, ?_⟩
  · rw [if_pos ⟨by norm_num, by norm_num⟩, if_pos (by norm_num)]
  · rw [if_neg (by intro hc; omega)]
  · rw [if_pos ⟨by norm_num, by norm_num⟩, if_neg (by norm_num)]
  · rw [if_neg (by intro hc; omega)]

/-! ## Claim C5: where the decoder reads its header words -/

/-- C5 counterexample: at slot offset `ptr = 2`, the implementation
reads the high word at `u32`-cell index `ptr + 1` (bytes 12-15), not at
byte offset `ptr + 4` (bytes 6-9) as the claim describes; on `c5mem`
the two decoders disagree: the code returns `2^64 + 2^63` while the
byte-addressed decoder of the claim returns 1. -/
theorem c5_decoder_offsets_counterexample :
    (SafeMem.new c5mem 1 (frModulus : ℤ)).read_fr 2
        = Except.ok ((27670116110564327424 : ℕ) : ℤ)
    ∧ read_fr_specByte (SafeMem.new c5mem 1 (frModulus : ℤ)) 2 = 1
    ∧ ((27670116110564327424 : ℕ) : ℤ) ≠ 1 := by
  refine ⟨rfl, rfl, by norm_num⟩

/-- C5 amended: the decoder reads its header words through the `u32`
view at cell indices `ptr + 1` and `ptr` (byte offsets `4*ptr + 4` and
`4*ptr`), while the payload reads stay byte-addressed; at `ptr = 0` the
cell and byte addressing coincide and the decoder behaves exactly as
the claim describes, on every memory state. -/
theorem c5_decoder_amended (s : SafeMem)
    (hsz : 128 ≤ s.mem.size) (hn1 : 1 ≤ s.n32) (hn2 : 8 + s.n32 * 32 ≤ s.mem.size) :
    s.read_fr 0 = Except.ok (read_fr_specByte s 0) := by
  unfold SafeMem.read_fr read_fr_specByte
  simp only [Nat.zero_add]
  rw [viewU32_eval _ 1 (by omega)]
  dsimp only
  have h14 : (1 : ℕ) * 4 = 4 := by norm_num
  rw [h14]
  by_cases hmsb : Nat.land (readBytesLE s.mem 4 4) 2147483648 ≠ 0
  · rw [if_pos hmsb, if_pos hmsb]
    unfold SafeMem.read_big
    rw [if_pos (by omega), if_pos (by have := Nat.mul_le_mul_right 32 hn1; omega)]
  · rw [if_neg hmsb, if_neg hmsb]
    unfold SafeMem.read_big
    rw [if_pos (by omega), if_pos (by norm_num)]
    dsimp only
    rw [viewU32_eval _ 0 (by omega)]
    have h04 : (0 : ℕ) * 4 = 0 := by norm_num
    rw [h04]
    dsimp only
    by_cases hl : Nat.land (readBytesLE s.mem 0 4) 2147483648 ≠ 0
    · rw [if_pos hl, if_pos hl]
    · rw [if_neg hl, if_neg hl]

/-- Witness for the amended C5 on the fresh zeroed memory. -/
theorem c5_decoder_amended_witness :
    (SafeMem.new zero64k 1 (frModulus : ℤ)).read_fr 0
      = Except.ok (read_fr_specByte (SafeMem.new zero64k 1 (frModulus : ℤ)) 0) :=
  c5_decoder_amended (SafeMem.new zero64k 1 (frModulus : ℤ)) (by decide) (by decide) (by decide)

/-! ## Claim C6: the bump allocator -/

lemma alloc_u32_ok (s : SafeMem) (p : ℕ) (s2 : SafeMem)
    (h : s.alloc_u32 = Except.ok (p, s2)) :
    p = freePosVal s ∧ freePosVal s2 = p + 8 ∧ s2.mem.size = s.mem.size := by
  unfold SafeMem.alloc_u32 SafeMem.free_pos Mem.viewU32 at h
  simp only [Nat.zero_add, Nat.one_mul, Nat.zero_mul] at h
  by_cases h4 : 4 ≤ s.mem.size
  · rw [if_pos h4] at h
    dsimp only at h
    by_cases hov : readBytesLE s.mem 0 4 + 8 < 4294967296
    · rw [if_pos hov] at h
      unfold SafeMem.set_free_pos SafeMem.write_u32 at h
      rw [if_pos (by omega)] at h
      dsimp only at h
      injection h with h2
      cases h2
      refine ⟨rfl, ?_, rfl⟩
      show readBytesLE (writeBytesLE s.mem 0 (readBytesLE s.mem 0 4 + 8) 4) 0 4
          = readBytesLE s.mem 0 4 + 8
      rw [readBytesLE_writeBytesLE]
      have e4 : (256 : ℕ) ^ 4 = 4294967296 := by norm_num
      rw [e4]
      omega
    · rw [if_neg hov] at h
      simp at h
  · rw [if_neg h4] at h
    simp at h

lemma alloc_fr_ok (s : SafeMem) (p : ℕ) (s2 : SafeMem)
    (h : s.alloc_fr = Except.ok (p, s2)) :
    p = freePosVal s ∧ freePosVal s2 = p + 40 ∧ s2.mem.size = s.mem.size := by
  unfold SafeMem.alloc_fr SafeMem.free_pos Mem.viewU32 at h
  simp only [Nat.zero_add, Nat.one_mul, Nat.zero_mul] at h
  by_cases h4 : 4 ≤ s.mem.size
  · rw [if_pos h4] at h
    dsimp only at h
    by_cases hov : readBytesLE s.mem 0 4 + (8 * 4 + 8) < 4294967296
    · rw [if_pos hov] at h
      unfold SafeMem.set_free_pos SafeMem.write_u32 at h
      rw [if_pos (by omega)] at h
      dsimp only at h
      injection h with h2
      cases h2
      refine ⟨rfl, ?_, rfl⟩
      show readBytesLE (writeBytesLE s.mem 0 (readBytesLE s.mem 0 4 + (8 * 4 + 8)) 4) 0 4
          = readBytesLE s.mem 0 4 + 40
      rw [readBytesLE_writeBytesLE]
      have e4 : (256 : ℕ) ^ 4 = 4294967296 := by norm_num
      rw [e4]
      omega
    · rw [if_neg hov] at h
      simp at h
  · rw [if_neg h4] at h
    simp at h

lemma runAllocs_freePos (ops : List AllocOp) : ∀ (s : SafeMem) (ps : List ℕ) (s2 : SafeMem),
    s.runAllocs ops = Except.ok (ps, s2)
      → freePosVal s2 = freePosVal s + sumAllocSizes ops := by
  induction ops with
  | nil =>
    intro s ps s2 h
    unfold SafeMem.runAllocs at h
    injection h with h2
    cases h2
    simp [sumAllocSizes]
  | cons op rest ih =>
    intro s ps s2 h
    unfold SafeMem.runAllocs at h
    have hsum : sumAllocSizes (op :: rest) = allocOpSize op + sumAllocSizes rest := rfl
    cases op with
    | word =>
      dsimp only [SafeMem.allocStep] at h
      cases hop : s.alloc_u32 with
      | error e => rw [hop] at h; simp at h
      | ok pr =>
        rw [hop] at h
        obtain ⟨p, s1⟩ := pr
        dsimp only at h
        cases hrest : s1.runAllocs rest with
        | error e => rw [hrest] at h; simp at h
        | ok pr2 =>
          rw [hrest] at h
          obtain ⟨ps2, s3⟩ := pr2
          dsimp only at h
          injection h with h2
          cases h2
          have hstep := alloc_u32_ok s p s1 hop
          have htail := ih s1 ps2 _ hrest
          rw [hsum]
          simp only [allocOpSize]
          omega
    | fr =>
      dsimp only [SafeMem.allocStep] at h
      cases hop : s.alloc_fr with
      | error e => rw [hop] at h; simp at h
      | ok pr =>
        rw [hop] at h
        obtain ⟨p, s1⟩ := pr
        dsimp only at h
        cases hrest : s1.runAllocs rest with
        | error e => rw [hrest] at h; simp at h
        | ok pr2 =>
          rw [hrest] at h
          obtain ⟨ps2, s3⟩ := pr2
          dsimp only at h
          injection h with h2
          cases h2
          have hstep := alloc_fr_ok s p s1 hop
          have htail := ih s1 ps2 _ hrest
          rw [hsum]
          simp only [allocOpSize]
          omega

/-- C6 counterexample: from `FreePointer = 8`, two `alloc_fr` calls
return offsets 8 and 48 — which are `8*4 + 8 = 40` apart, not 48
apart as the claim's parenthetical asserts. -/
theorem c6_alloc_fr_gap_counterexample :
    ∃ s1 s2 s3 p1 p2,
      (SafeMem.new m136 8 (frModulus : ℤ)).set_free_pos 8 = Except.ok s1
      ∧ s1.alloc_fr = Except.ok (p1, s2)
      ∧ s2.alloc_fr = Except.ok (p2, s3)
      ∧ p1 = 8 ∧ p2 = 48 ∧ p2 - p1 ≠ 48 := by
  exact ⟨_, _, _, _, _, rfl, rfl, rfl, rfl, rfl, by decide⟩

/-- C6 amended: successive `alloc_u32` offsets are exactly 8 apart;
successive `alloc_fr` offsets are exactly `8*4 + 8 = 40` apart (giving
offsets 8 and 48 from `FreePointer = 8`); after any sequence of
allocations the free pointer equals its initial value plus the sum of
the allocated sizes, and it never decreases. -/
theorem c6_allocator_amended :
    (∀ s p1 s1 p2 s2, SafeMem.alloc_u32 s = Except.ok (p1, s1)
        → SafeMem.alloc_u32 s1 = Except.ok (p2, s2) → p2 = p1 + 8)
    ∧ (∀ s p1 s1 p2 s2, SafeMem.alloc_fr s = Except.ok (p1, s1)
        → SafeMem.alloc_fr s1 = Except.ok (p2, s2) → p2 = p1 + (8 * 4 + 8))
    ∧ (∀ (s : SafeMem) (ops : List AllocOp) (ps : List ℕ) (s2 : SafeMem),
        s.runAllocs ops = Except.ok (ps, s2)
          → freePosVal s2 = freePosVal s + sumAllocSizes ops)
    ∧ (∀ (s : SafeMem) (ops : List AllocOp) (ps : List ℕ) (s2 : SafeMem),
        s.runAllocs ops = Except.ok (ps, s2) → freePosVal s ≤ freePosVal s2) := by
  refine ⟨?_, ?_, ?_, ?_⟩
  · intro s p1 s1 p2 s2 h1 h2
    have ha := alloc_u32_ok s p1 s1 h1
    have hb := alloc_u32_ok s1 p2 s2 h2
    omega
  · intro s p1 s1 p2 s2 h1 h2
    have ha := alloc_fr_ok s p1 s1 h1
    have hb := alloc_fr_ok s1 p2 s2 h2
    omega
  · intro s ops ps s2 h
    exact runAllocs_freePos ops s ps s2 h
  · intro s ops ps s2 h
    have := runAllocs_freePos ops s ps s2 h
    omega

/-- Witness for the amended C6: one `alloc_u32` followed by one
`alloc_fr` on a fresh buffer advances the free pointer by `8 + 40`. -/
theorem c6_allocator_amended_witness :
    ∃ r, (SafeMem.new m136 8 (frModulus : ℤ)).runAllocs [AllocOp.word, AllocOp.fr]
        = Except.ok r
      ∧ freePosVal r.2 = freePosVal (SafeMem.new m136 8 (frModulus : ℤ))
          + sumAllocSizes [AllocOp.word, AllocOp.fr] := by
  obtain ⟨ps, s2, h⟩ : ∃ ps s2, (SafeMem.new m136 8 (frModulus : ℤ)).runAllocs
      [AllocOp.word, AllocOp.fr] = Except.ok (ps, s2) := ⟨_, _, rfl⟩
  exact ⟨(ps, s2), h, c6_allocator_amended.2.2.1 _ _ _ _ h⟩

/-! ## Claim C8: what happens on an out-of-bounds access -/

/-- C8 counterexample: an out-of-bounds `write_u32` fails as a Rust
slice-bounds panic, which is not the structured `MemoryAccessFault`
error the claim prescribes. -/
theorem c8_oob_error_kind_counterexample :
    (SafeMem.new mem8 1 (frModulus : ℤ)).write_u32 100 7 = Except.error RtError.panic
    ∧ RtError.panic ≠ RtError.memoryAccessFault :=
  ⟨rfl, by decide⟩

/-- C8 amended: no out-of-bounds word access succeeds — an access with
`offset + 4 > bufferSize` fails, but as a slice-bounds panic rather
than a structured `MemoryAccessFault` (which no code path produces);
in-bounds accesses succeed. -/
theorem c8_oob_panics_amended (s : SafeMem) (ptr num : ℕ) :
    (¬ ptr + 4 ≤ s.mem.size
        → s.write_u32 ptr num = Except.error RtError.panic
          ∧ s.read_u32 ptr = Except.error RtError.panic)
    ∧ s.write_u32 ptr num ≠ Except.error RtError.memoryAccessFault
    ∧ s.read_u32 ptr ≠ Except.error RtError.memoryAccessFault
    ∧ (ptr + 4 ≤ s.mem.size
        → (∃ t, s.write_u32 ptr num = Except.ok t) ∧ ∃ x, s.read_u32 ptr = Except.ok x) := by
  unfold SafeMem.write_u32 SafeMem.read_u32
  by_cases h : ptr + 4 ≤ s.mem.size
  · rw [if_pos h, if_pos h]
    exact ⟨fun hc => absurd h hc, by simp, by simp, fun _ => ⟨⟨_, rfl⟩, ⟨_, rfl⟩⟩⟩
  · rw [if_neg h, if_neg h]
    refine ⟨fun _ => ⟨rfl, rfl⟩, ?_, ?_, fun hc => absurd hc h⟩
    · intro hc
      injection hc with hc2
      exact absurd hc2 (by decide)
    · intro hc
      injection hc with hc2
      exact absurd hc2 (by decide)

/-- Witness for the amended C8: on an 8-byte buffer, the accesses at
offset 100 panic. -/
theorem c8_oob_panics_amended_witness :
    (SafeMem.new mem8 1 (frModulus : ℤ)).write_u32 100 7 = Except.error RtError.panic
    ∧ (SafeMem.new mem8 1 (frModulus : ℤ)).read_u32 100 = Except.error RtError.panic :=
  (c8_oob_panics_amended (SafeMem.new mem8 1 (frModulus : ℤ)) 100 7).1 (by decide)

/-! ## Claim C10: the word-count parameter of `read_big` -/

/-- C10 counterexample: both byte windows `[0, 0*32)` and `[0, 1*32)`
are within the 136-byte buffer, yet `read_big 0 0` panics (the 32-byte
decode cannot be fed from an empty slice) while `read_big 0 1`
succeeds — so two in-bounds parameter values do not always give the
same result. -/
theorem c10_read_big_zero_width_counterexample :
    (SafeMem.new m136 1 (frModulus : ℤ)).read_big 0 0 = Except.error RtError.panic
    ∧ (SafeMem.new m136 1 (frModulus : ℤ)).read_big 0 1 = Except.ok 0
    ∧ 0 + 0 * 32 ≤ m136.size ∧ 0 + 1 * 32 ≤ m136.size
    ∧ (SafeMem.new m136 1 (frModulus : ℤ)).read_big 0 0
        ≠ (SafeMem.new m136 1 (frModulus : ℤ)).read_big 0 1 := by
  have e1 : (SafeMem.new m136 1 (frModulus : ℤ)).read_big 0 0 = Except.error RtError.panic := rfl
  have e2 : (SafeMem.new m136 1 (frModulus : ℤ)).read_big 0 1 = Except.ok 0 := rfl
  refine ⟨e1, e2, by decide, by decide, ?_⟩
  rw [e1, e2]
  simp

/-- C10 amended: for any two nonzero word-count values whose byte
windows are within the buffer, `read_big` returns the same result — a
fixed 32-byte decode at `ptr` — so the parameter acts only as a
buffer-availability bound. -/
theorem c10_read_big_width_amended (s : SafeMem) (ptr n1 n2 : ℕ)
    (h1 : 1 ≤ n1) (h2 : 1 ≤ n2)
    (b1 : ptr + n1 * 32 ≤ s.mem.size) (b2 : ptr + n2 * 32 ≤ s.mem.size) :
    s.read_big ptr n1 = s.read_big ptr n2 := by
  unfold SafeMem.read_big
  rw [if_pos b1, if_pos b2, if_pos (by have := Nat.mul_le_mul_right 32 h1; omega),
    if_pos (by have := Nat.mul_le_mul_right 32 h2; omega)]

/-- Witness for the amended C10 with word counts 1 and 4. -/
theorem c10_read_big_width_amended_witness :
    (SafeMem.new m136 1 (frModulus : ℤ)).read_big 0 1
      = (SafeMem.new m136 1 (frModulus : ℤ)).read_big 0 4 :=
  c10_read_big_width_amended (SafeMem.new m136 1 (frModulus : ℤ)) 0 1 4 (by norm_num)
    (by norm_num) (by decide) (by decide)
